import Mathlib

/-!
# Verification of the FusionCrew microphone streaming pipeline

A shallow embedding, in Lean 4, of the continuous microphone pipeline of
`src/src/hook/useMicStreamer.ts`: the 16 kHz resampler (`downsampleTo16k`),
the PCM/WAV codec (`floatTo16BitPCM`, `encodeWav`), the energy-gated
segmenter state machine (the body of `onaudioprocess`), and the
finalize / transcribe / translate pipeline (`finalizeSegment`,
`translateOne`, the bounded worker queue and the result re-sort).

Numeric conventions: audio samples, durations in milliseconds and energy
values are modelled as rationals (`ℚ`), so that the threshold comparisons
of the source are exact.  A frame's `energy` field stands for
`rmsEnergy(down)` of the source (a square root used only as a gate input
and a diagnostic), carried as an abstract value because every segmentation
claim quantifies over frame-energy sequences.  Network calls are modelled
by an oracle (`Env`) giving each request's final outcome (success text,
failure, or abort), exactly the three ways `fetchWithRetry` can resolve.
-/

namespace MicStreamer

/-- The VAD / segmentation parameters of `useMicStreamer` (`Opts` plus the
defaults destructured at the top of the hook). -/
structure Config where
  vadGateHigh : ℚ
  vadGateLow : ℚ
  padMs : ℚ
  minSpeechMs : ℚ
  maxSegmentMs : ℚ
deriving DecidableEq

/-- The default parameter values of the hook:
`vadGateHigh = 0.01, vadGateLow = 0.004, padMs = 70, minSpeechMs = 800,
maxSegmentMs = 5000`. -/
def defaultConfig : Config :=
  { vadGateHigh := 1/100, vadGateLow := 4/1000, padMs := 70
    minSpeechMs := 800, maxSegmentMs := 5000 }

/-- One audio-callback frame after downsampling to 16 kHz and pre-gain
(the `down` buffer of `onaudioprocess`).  `samples` are the float samples;
`frameMs` is `(down.length / 16000) * 1000`; `energy` is `rmsEnergy(down)`. -/
structure Frame where
  samples : List ℚ
  frameMs : ℚ
  energy : ℚ
deriving DecidableEq

/-- The mutable segmenter state held in the refs `segFramesRef`,
`segDurMsRef`, `silenceMsRef`, `speakingRef`, `voicedMsRef`. -/
structure SegState where
  segFrames : List Frame
  segDurMs : ℚ
  silenceMs : ℚ
  speaking : Bool
  voicedMs : ℚ
deriving DecidableEq

/-- `resetSegmentState()` of the source: every counter zero, not speaking,
empty frame buffer.  Also the initial state installed on session start. -/
def resetSegmentState : SegState :=
  { segFrames := [], segDurMs := 0, silenceMs := 0, speaking := false, voicedMs := 0 }

/-- A finalized segment as read by `finalizeSegment` from the refs at the
moment of the call (before `resetSegmentState()` runs). -/
structure Segment where
  frames : List Frame
  durMs : ℚ
  voicedMs : ℚ
deriving DecidableEq

/-- One step of the segmenter: the VAD / accumulation logic of the
`onaudioprocess` handler, lines 184-210 of `useMicStreamer.ts`.
Returns the successor state and the finalized segment, if this frame
triggered `finalizeSegment()` (which is immediately followed by
`resetSegmentState()`). -/
def stepFrame (cfg : Config) (st : SegState) (f : Frame) : SegState × Option Segment :=
  if st.speaking = false then
    if cfg.vadGateHigh ≤ f.energy then
      ({ segFrames := st.segFrames ++ [f], segDurMs := st.segDurMs + f.frameMs,
         silenceMs := 0, speaking := true, voicedMs := st.voicedMs + f.frameMs }, none)
    else
      (st, none)
  else
    let st1 : SegState :=
      { st with segFrames := st.segFrames ++ [f], segDurMs := st.segDurMs + f.frameMs }
    if f.energy < cfg.vadGateLow then
      let st2 : SegState := { st1 with silenceMs := st1.silenceMs + f.frameMs }
      if cfg.padMs ≤ st2.silenceMs ∨ cfg.maxSegmentMs ≤ st2.segDurMs then
        (resetSegmentState, some ⟨st2.segFrames, st2.segDurMs, st2.voicedMs⟩)
      else
        (st2, none)
    else
      let st2 : SegState := { st1 with silenceMs := 0, voicedMs := st1.voicedMs + f.frameMs }
      if cfg.maxSegmentMs ≤ st2.segDurMs then
        (resetSegmentState, some ⟨st2.segFrames, st2.segDurMs, st2.voicedMs⟩)
      else
        (st2, none)

/-- Run the segmenter over a sequence of frames, collecting the finalized
segments in emission order. -/
def runFrames (cfg : Config) (st : SegState) : List Frame → SegState × List Segment
  | [] => (st, [])
  | f :: rest =>
    let s := stepFrame cfg st f
    let r := runFrames cfg s.1 rest
    (r.1, s.2.toList ++ r.2)

/-- A frame sequence oscillating strictly between the default `vadGateLow`
(0.004) and `vadGateHigh` (0.01): energies 0.005 and 0.009. -/
def oscillatingFrames : List Frame :=
  [⟨[], 128, 5/1000⟩, ⟨[], 128, 9/1000⟩, ⟨[], 128, 5/1000⟩, ⟨[], 128, 9/1000⟩,
   ⟨[], 128, 5/1000⟩, ⟨[], 128, 9/1000⟩]

/-- C4: for every frame-energy sequence in which no frame's energy reaches
`vadGateHigh`, the segmenter stays in the idle state forever: the state
after any number of frames is exactly `resetSegmentState` (so no segment
buffer is created and no frame is accumulated) and no segment is ever
finalized (hence `finalizeSegment`, and with it any network call, never
runs). -/
theorem C4_hysteresis_stays_idle (cfg : Config) (frames : List Frame)
    (hE : ∀ f ∈ frames, f.energy < cfg.vadGateHigh) :
    runFrames cfg resetSegmentState frames = (resetSegmentState, []) := by
  induction frames with
  | nil => rfl
  | cons f rest ih =>
    have hf : ¬ cfg.vadGateHigh ≤ f.energy :=
      not_le.mpr (hE f (List.mem_cons_self f rest))
    have hstep : stepFrame cfg resetSegmentState f = (resetSegmentState, none) := by
      simp [stepFrame, resetSegmentState, hf]
    simp [runFrames, hstep, ih (fun g hg => hE g (List.mem_cons_of_mem f hg))]

/-- Witness for C4 at a concrete input: an energy sequence oscillating
strictly between the default thresholds leaves the segmenter idle with no
finalized segment. -/
theorem C4_hysteresis_stays_idle_witness :
    runFrames defaultConfig resetSegmentState oscillatingFrames = (resetSegmentState, []) :=
  C4_hysteresis_stays_idle defaultConfig oscillatingFrames (by
    intro f hf
    simp only [oscillatingFrames, List.mem_cons, List.not_mem_nil, or_false] at hf
    rcases hf with h | h | h | h | h | h <;> subst h <;> norm_num [defaultConfig])

/-! ## The finalize / transcribe / translate pipeline

`finalizeSegment` (lines 235-333 of `useMicStreamer.ts`) reads the captured
segment from the refs, applies the empty-buffer, minimum-duration and
quality-gate rejections, encodes, and performs the network phase.  Network
calls are modelled by their final resolution: `fetchWithRetry` either
returns an ok response (whose json yields a text), or throws the last
error after its retries, or throws an AbortError because the request's
AbortController was aborted (a superseding `finalizeSegment` run or
`cleanup()` calls `reqCtrlRef.current?.abort()`; a fetch whose signal is
aborted, including every retry attempt, rejects with AbortError). -/

/-- Final resolution of one network call (transcription, or one target's
translation): success with the response text, failure with an error
message, or AbortError. -/
inductive NetResult where
  | ok (text : String)
  | err (msg : String)
  | aborted
deriving DecidableEq

/-- Network oracle for one `finalizeSegment` run: the resolution of the
transcription request and of each target language's translation request. -/
structure Env where
  stt : NetResult
  tr : String → NetResult

/-- The whitespace class of JavaScript `String.prototype.trim` (space,
tab, line feed, vertical tab, form feed, carriage return, no-break
space). -/
def isJsWhitespace (c : Char) : Bool :=
  c = ' ' || c = '\t' || c = '\n' || c = '\x0b' || c = '\x0c' || c = '\r' || c = '\u00A0'

/-- JavaScript `String.prototype.trim`: strip leading and trailing
whitespace. -/
def jsTrim (s : String) : String :=
  ⟨((s.data.dropWhile isJsWhitespace).reverse.dropWhile isJsWhitespace).reverse⟩

/-- Callback invocations observable by the consumer of the hook. -/
inductive Event where
  | onResult (original : String) (translations : List (String × String))
  | onError (msg : String)
deriving DecidableEq

/-- The pre-network rejection points of `finalizeSegment`, in source
order: empty frame buffer (line 240), minimum speech duration (line 241),
quality gate (lines 259-262). -/
inductive Rejection where
  | emptyFrames
  | minSpeech
  | qualityGate
deriving DecidableEq

/-- Observable outcome of one `finalizeSegment` run: which pre-network
check rejected the segment (if any), whether the segment was encoded
(`floatTo16BitPCM` / `encodeWav` ran), whether the transcription request
was sent, which targets had a translation request sent, and the callback
events delivered to the consumer. -/
structure FinalizeResult where
  rejection : Option Rejection
  encoded : Bool
  sttCalled : Bool
  translateCalled : List String
  events : List Event
deriving DecidableEq

/-- Per-target behaviour of `translateOne` (lines 298-311): on a
successful call the response text is trimmed and pushed to `results` only
if non-empty; a thrown error — final failure or AbortError — is swallowed
by the worker loop's `catch` and contributes nothing.  Returns the entry
pushed, if any. -/
def translateOne (env : Env) (lang : String) : Option (String × String) :=
  match env.tr lang with
  | .ok t => let t' := jsTrim t; if t' = "" then none else some (lang, t')
  | .err _ => none
  | .aborted => none

/-- The entries pushed to `results`, in queue order.  Each worker shifts
the next unclaimed target from the shared queue `[...outputs]`, so every
target is processed exactly once; with one worker `results` is exactly
this list, and with several workers `results` is a permutation of it
(pushes happen in completion order). -/
def runTranslationQueue (env : Env) (outputs : List String) : List (String × String) :=
  outputs.filterMap (translateOne env)

/-- The delivery step (line 327):
`results.sort((a, b) => outputs.indexOf(a.lang) - outputs.indexOf(b.lang))`
— a stable sort of `results` by first-occurrence index of the language in
`outputs`.  (Every entry's language is an element of `outputs`, since the
queue is a copy of `outputs`, so the JavaScript `-1`-for-absent case of
`indexOf` never arises.) -/
def deliverTranslations (outputs : List String) (results : List (String × String)) :
    List (String × String) :=
  results.mergeSort (fun a b =>
    decide (List.indexOf a.1 outputs ≤ List.indexOf b.1 outputs))

/-- The quality-gate voiced fraction (line 256):
`voicedMs > 0 ? voicedMs / Math.max(1, durMs) : 0`. -/
def voicedFractionOf (seg : Segment) : ℚ :=
  if 0 < seg.voicedMs then seg.voicedMs / max 1 seg.durMs else 0

/-- Model of `finalizeSegment` (lines 235-333).  The segment is the value
of the refs at call time.  Control flow follows the source: return on an
empty frame buffer; return when `durMs < minSpeechMs`; compute the quality
metrics and return when `voicedFraction < 0.18 && durMs < 1200`; otherwise
encode (`floatTo16BitPCM`, `encodeWav` — modelled by the `encoded` flag;
the merged buffer, `rms` and `peak` feed only the diagnostic `stats`
payload of the request) and run the network phase: on a transcription
AbortError the outer catch returns silently; on a final transcription
failure the outer catch invokes `onError`; on success the trimmed
transcript, if empty, produces nothing further, and otherwise the
translation workers run (their per-target failures and AbortErrors are
swallowed) and `onResult` is invoked with the sorted results. -/
def finalizeSegment (cfg : Config) (env : Env) (outputs : List String)
    (seg : Segment) : FinalizeResult :=
  if seg.frames.length = 0 then
    { rejection := some .emptyFrames, encoded := false, sttCalled := false,
      translateCalled := [], events := [] }
  else if seg.durMs < cfg.minSpeechMs then
    { rejection := some .minSpeech, encoded := false, sttCalled := false,
      translateCalled := [], events := [] }
  else if voicedFractionOf seg < 18/100 ∧ seg.durMs < 1200 then
    { rejection := some .qualityGate, encoded := false, sttCalled := false,
      translateCalled := [], events := [] }
  else
    match env.stt with
    | .aborted =>
      { rejection := none, encoded := true, sttCalled := true,
        translateCalled := [], events := [] }
    | .err m =>
      { rejection := none, encoded := true, sttCalled := true,
        translateCalled := [], events := [.onError m] }
    | .ok t =>
      let transcript := jsTrim t
      if transcript = "" then
        { rejection := none, encoded := true, sttCalled := true,
          translateCalled := [], events := [] }
      else
        { rejection := none, encoded := true, sttCalled := true,
          translateCalled := outputs,
          events := [.onResult transcript
            (deliverTranslations outputs (runTranslationQueue env outputs))] }

/-- C5: a finalized segment whose total duration is strictly below
`minSpeechMs` is discarded silently — not encoded, no transcription
request, no translation request, no `onResult`, no `onError` — and the
rejection point is one of the two checks (empty buffer, minimum duration)
that precede the quality gate. -/
theorem C5_min_duration_silent_discard (cfg : Config) (env : Env)
    (outputs : List String) (seg : Segment) (h : seg.durMs < cfg.minSpeechMs) :
    (finalizeSegment cfg env outputs seg).encoded = false ∧
    (finalizeSegment cfg env outputs seg).sttCalled = false ∧
    (finalizeSegment cfg env outputs seg).translateCalled = [] ∧
    (finalizeSegment cfg env outputs seg).events = [] ∧
    ((finalizeSegment cfg env outputs seg).rejection = some .emptyFrames ∨
      (finalizeSegment cfg env outputs seg).rejection = some .minSpeech) := by
  by_cases hf : seg.frames.length = 0 <;> simp [finalizeSegment, hf, h]

/-- Witness for C5 at a concrete input: a 300 ms segment (below the
default 800 ms minimum) is silently discarded at the minimum-duration
check. -/
theorem C5_min_duration_silent_discard_witness :
    (finalizeSegment defaultConfig ⟨.ok "hi", fun _ => .ok "t"⟩ ["en"]
        ⟨[⟨[], 128, 5/100⟩], 300, 300⟩).events = [] ∧
    (finalizeSegment defaultConfig ⟨.ok "hi", fun _ => .ok "t"⟩ ["en"]
        ⟨[⟨[], 128, 5/100⟩], 300, 300⟩).sttCalled = false := by
  have h := C5_min_duration_silent_discard defaultConfig ⟨.ok "hi", fun _ => .ok "t"⟩
    ["en"] ⟨[⟨[], 128, 5/100⟩], 300, 300⟩ (by norm_num [defaultConfig])
  exact ⟨h.2.2.2.1, h.2.1⟩

/-- C6: for a finalized segment that passes the minimum-duration check,
the quality gate discards it if and only if its voiced fraction is below
the low threshold (0.18) AND its total duration is below the
short-duration threshold (1200 ms); on a discard nothing is encoded and
no network call or callback happens, while a segment failing only one (or
neither) of the two conditions proceeds to encoding and upload. -/
theorem C6_quality_gate_iff (cfg : Config) (env : Env) (outputs : List String)
    (seg : Segment) (hne : seg.frames.length ≠ 0)
    (hmin : ¬ seg.durMs < cfg.minSpeechMs) :
    ((finalizeSegment cfg env outputs seg).rejection = some .qualityGate ↔
      voicedFractionOf seg < 18/100 ∧ seg.durMs < 1200) ∧
    (voicedFractionOf seg < 18/100 ∧ seg.durMs < 1200 →
      (finalizeSegment cfg env outputs seg).encoded = false ∧
      (finalizeSegment cfg env outputs seg).sttCalled = false ∧
      (finalizeSegment cfg env outputs seg).translateCalled = [] ∧
      (finalizeSegment cfg env outputs seg).events = []) ∧
    (¬ (voicedFractionOf seg < 18/100 ∧ seg.durMs < 1200) →
      (finalizeSegment cfg env outputs seg).encoded = true ∧
      (finalizeSegment cfg env outputs seg).sttCalled = true) := by
  by_cases hg : voicedFractionOf seg < 18/100 ∧ seg.durMs < 1200
  · simp [finalizeSegment, hne, hmin, hg]
  · rcases env with ⟨stt, tr⟩
    cases stt <;> (simp [finalizeSegment, hne, hmin, hg]; try (split <;> simp))

/-- Witness for C6 at a concrete input: a 1300 ms segment fails the
short-duration condition alone, so it proceeds to upload. -/
theorem C6_quality_gate_iff_witness :
    (finalizeSegment defaultConfig ⟨.ok "hi", fun _ => .ok "t"⟩ ["en"]
        ⟨[⟨[], 128, 1/20⟩], 1300, 1300⟩).sttCalled = true := by
  have h := C6_quality_gate_iff defaultConfig ⟨.ok "hi", fun _ => .ok "t"⟩ ["en"]
    ⟨[⟨[], 128, 1/20⟩], 1300, 1300⟩ (by simp) (by norm_num [defaultConfig])
  exact (h.2.2 (fun hc => absurd hc.2 (by norm_num))).2

/-- C7: when the transcription call succeeds but the returned transcript
is empty, the pipeline produces nothing further — the transcription
request was sent, but no translation request is dispatched and neither
`onResult` nor `onError` is invoked. -/
theorem C7_empty_transcript_no_followup (cfg : Config) (env : Env)
    (outputs : List String) (seg : Segment) (t : String)
    (hne : seg.frames.length ≠ 0) (hmin : ¬ seg.durMs < cfg.minSpeechMs)
    (hgate : ¬ (voicedFractionOf seg < 18/100 ∧ seg.durMs < 1200))
    (hstt : env.stt = .ok t) (ht : jsTrim t = "") :
    (finalizeSegment cfg env outputs seg).sttCalled = true ∧
    (finalizeSegment cfg env outputs seg).translateCalled = [] ∧
    (finalizeSegment cfg env outputs seg).events = [] := by
  rcases env with ⟨stt, tr⟩
  cases hstt
  simp [finalizeSegment, hne, hmin, hgate, ht]

/-- Witness for C7 at a concrete input: transcription returns an empty
text for a 1300 ms segment; the transcription call happened but nothing
follows. -/
theorem C7_empty_transcript_no_followup_witness :
    (finalizeSegment defaultConfig ⟨.ok "", fun _ => .ok "t"⟩ ["en"]
        ⟨[⟨[], 128, 1/20⟩], 1300, 1300⟩).sttCalled = true ∧
    (finalizeSegment defaultConfig ⟨.ok "", fun _ => .ok "t"⟩ ["en"]
        ⟨[⟨[], 128, 1/20⟩], 1300, 1300⟩).translateCalled = [] ∧
    (finalizeSegment defaultConfig ⟨.ok "", fun _ => .ok "t"⟩ ["en"]
        ⟨[⟨[], 128, 1/20⟩], 1300, 1300⟩).events = [] :=
  C7_empty_transcript_no_followup defaultConfig ⟨.ok "", fun _ => .ok "t"⟩ ["en"]
    ⟨[⟨[], 128, 1/20⟩], 1300, 1300⟩ "" (by simp)
    (by norm_num [defaultConfig]) (fun hc => absurd hc.2 (by norm_num)) rfl rfl

/-- An entry pushed by `translateOne` for target `lang` carries `lang`
itself as its language component. -/
theorem translateOne_fst (env : Env) (lang : String) (p : String × String)
    (h : translateOne env lang = some p) : p.1 = lang := by
  unfold translateOne at h
  rcases henv : env.tr lang with t | m | _ <;> rw [henv] at h <;> simp at h
  rw [← h.2]

/-- C10: a target language whose translation call succeeds but returns
whitespace-only text is silently omitted from the pushed results and from
the delivered translations, exactly as a failed target is; and a
whitespace-only transcript is treated as an empty transcript — no
translation dispatch, no callback. -/
theorem C10_whitespace_as_failure (cfg : Config) (env : Env)
    (outputs : List String) (seg : Segment) (lang t : String)
    (hok : env.tr lang = .ok t) (ht : jsTrim t = "") :
    translateOne env lang = none ∧
    (∀ m, translateOne ⟨env.stt, fun l => if l = lang then .err m else env.tr l⟩ lang
        = none) ∧
    lang ∉ (runTranslationQueue env outputs).map Prod.fst ∧
    lang ∉ (deliverTranslations outputs (runTranslationQueue env outputs)).map Prod.fst ∧
    (∀ u, env.stt = .ok u → jsTrim u = "" →
      (finalizeSegment cfg env outputs seg).translateCalled = [] ∧
      (finalizeSegment cfg env outputs seg).events = []) := by
  have hnone : translateOne env lang = none := by
    unfold translateOne
    rw [hok]
    simp [ht]
  have hqueue : lang ∉ (runTranslationQueue env outputs).map Prod.fst := by
    intro hmem
    rcases List.mem_map.mp hmem with ⟨p, hp, hfst⟩
    rcases List.mem_filterMap.mp hp with ⟨l, _, hl⟩
    have := translateOne_fst env l p hl
    rw [this] at hfst
    subst hfst
    rw [hnone] at hl
    exact Option.noConfusion hl
  refine ⟨hnone, ?_, hqueue, ?_, ?_⟩
  · intro m
    unfold translateOne
    simp
  · intro hmem
    rcases List.mem_map.mp hmem with ⟨p, hp, hfst⟩
    have hp' : p ∈ runTranslationQueue env outputs := by
      have := List.mergeSort_perm (runTranslationQueue env outputs)
        (fun a b => decide (List.indexOf a.1 outputs ≤ List.indexOf b.1 outputs))
      exact this.mem_iff.mp (by simpa [deliverTranslations] using hp)
    exact hqueue (List.mem_map.mpr ⟨p, hp', hfst⟩)
  · intro u hstt hu
    rcases env with ⟨stt, tr⟩
    cases hstt
    by_cases hne : seg.frames.length = 0
    · simp [finalizeSegment, hne]
    · by_cases hmin : seg.durMs < cfg.minSpeechMs
      · simp [finalizeSegment, hne, hmin]
      · by_cases hg : voicedFractionOf seg < 18/100 ∧ seg.durMs < 1200 <;>
          simp [finalizeSegment, hne, hmin, hg, hu]

/-- Witness for C10 at a concrete input: a translation returning only
blanks is omitted from the delivered list, and a whitespace-only
transcript produces no events. -/
theorem C10_whitespace_as_failure_witness :
    translateOne ⟨.ok " ", fun l => if l = "de" then .ok " \t" else .ok "x"⟩ "de" = none ∧
    "de" ∉ (deliverTranslations ["de", "fr"]
      (runTranslationQueue ⟨.ok " ", fun l => if l = "de" then .ok " \t" else .ok "x"⟩
        ["de", "fr"])).map Prod.fst ∧
    (finalizeSegment defaultConfig
      ⟨.ok " ", fun l => if l = "de" then .ok " \t" else .ok "x"⟩ ["de", "fr"]
      ⟨[⟨[], 128, 1/20⟩], 1300, 1300⟩).events = [] := by
  have h := C10_whitespace_as_failure defaultConfig
    ⟨.ok " ", fun l => if l = "de" then .ok " \t" else .ok "x"⟩ ["de", "fr"]
    ⟨[⟨[], 128, 1/20⟩], 1300, 1300⟩ "de" " \t" (by decide) (by decide)
  exact ⟨h.1, h.2.2.2.1, (h.2.2.2.2 " " rfl (by decide)).2⟩

/-- C1 (amended): when the transcription request's final resolution is an
abort (superseding segment or teardown), nothing reaches the consumer —
no translation request is dispatched and neither callback is invoked; and
`onError` is only ever invoked with the message of a genuine transcription
failure, never for aborted work.  However, an abort that arrives after
transcription already succeeded with a non-empty transcript does NOT make
the session inert: `onResult` is still invoked, with the translations that
completed before the abort (aborted targets silently omitted). -/
theorem C1_abort_semantics (cfg : Config) (env : Env) (outputs : List String)
    (seg : Segment) :
    (env.stt = .aborted →
      (finalizeSegment cfg env outputs seg).events = [] ∧
      (finalizeSegment cfg env outputs seg).translateCalled = []) ∧
    (∀ m, Event.onError m ∈ (finalizeSegment cfg env outputs seg).events →
      env.stt = .err m) ∧
    (∀ t, env.stt = .ok t → jsTrim t ≠ "" →
      seg.frames.length ≠ 0 → ¬ seg.durMs < cfg.minSpeechMs →
      ¬ (voicedFractionOf seg < 18/100 ∧ seg.durMs < 1200) →
      (finalizeSegment cfg env outputs seg).events =
        [.onResult (jsTrim t)
          (deliverTranslations outputs (runTranslationQueue env outputs))]) := by
  rcases env with ⟨stt, tr⟩
  refine ⟨?_, ?_, ?_⟩
  · intro hstt
    cases hstt
    by_cases hne : seg.frames.length = 0
    · simp [finalizeSegment, hne]
    · by_cases hmin : seg.durMs < cfg.minSpeechMs
      · simp [finalizeSegment, hne, hmin]
      · by_cases hg : voicedFractionOf seg < 18/100 ∧ seg.durMs < 1200 <;>
          simp [finalizeSegment, hne, hmin, hg]
  · intro m hm
    by_cases hne : seg.frames.length = 0
    · simp [finalizeSegment, hne] at hm
    · by_cases hmin : seg.durMs < cfg.minSpeechMs
      · simp [finalizeSegment, hne, hmin] at hm
      · by_cases hg : voicedFractionOf seg < 18/100 ∧ seg.durMs < 1200
        · simp [finalizeSegment, hne, hmin, hg] at hm
        · cases stt with
          | ok t =>
            by_cases ht : jsTrim t = "" <;>
              simp [finalizeSegment, hne, hmin, hg, ht] at hm
          | err m2 =>
            simp [finalizeSegment, hne, hmin, hg] at hm
            simp [hm]
          | aborted =>
            simp [finalizeSegment, hne, hmin, hg] at hm
  · intro t hstt ht hne hmin hg
    cases hstt
    simp [finalizeSegment, hne, hmin, hg, ht]

/-- Witness for C1 (amended) at a concrete input: a transcription request
that resolves as aborted produces no events and dispatches no
translation. -/
theorem C1_abort_semantics_witness :
    (finalizeSegment defaultConfig ⟨.aborted, fun _ => .ok "t"⟩ ["en"]
        ⟨[⟨[], 128, 1/20⟩], 1300, 1300⟩).events = [] ∧
    (finalizeSegment defaultConfig ⟨.aborted, fun _ => .ok "t"⟩ ["en"]
        ⟨[⟨[], 128, 1/20⟩], 1300, 1300⟩).translateCalled = [] :=
  (C1_abort_semantics defaultConfig ⟨.aborted, fun _ => .ok "t"⟩ ["en"]
      ⟨[⟨[], 128, 1/20⟩], 1300, 1300⟩).1 rfl

/-- Counterexample for C1 as stated: a session whose transcription
succeeded with transcript "hello" and whose translation requests were all
aborted by a superseding segment (every translation resolves with
AbortError) still invokes `onResult` — an event from the aborted session
reaches the consumer, so aborting a session's in-flight work does not make
its late resolution inert. -/
theorem C1_counterexample :
    (finalizeSegment defaultConfig ⟨.ok "hello", fun _ => .aborted⟩ ["en"]
        ⟨[⟨[], 128, 1/20⟩], 1300, 1300⟩).events = [.onResult "hello" []] ∧
    (finalizeSegment defaultConfig ⟨.ok "hello", fun _ => .aborted⟩ ["en"]
        ⟨[⟨[], 128, 1/20⟩], 1300, 1300⟩).events ≠ [] := by
  have hgate : ¬ (voicedFractionOf ⟨[⟨[], 128, 1/20⟩], 1300, 1300⟩ < 18/100 ∧
      (⟨[⟨[], 128, 1/20⟩], 1300, 1300⟩ : Segment).durMs < 1200) :=
    fun hc => absurd hc.2 (by norm_num)
  have hmin : ¬ (⟨[⟨[], 128, 1/20⟩], 1300, 1300⟩ : Segment).durMs
      < defaultConfig.minSpeechMs := by norm_num [defaultConfig]
  have hq : runTranslationQueue ⟨.ok "hello", fun _ => .aborted⟩ ["en"] = [] := rfl
  have htr : jsTrim "hello" = "hello" := by decide
  have hres : finalizeSegment defaultConfig ⟨.ok "hello", fun _ => .aborted⟩ ["en"]
      ⟨[⟨[], 128, 1/20⟩], 1300, 1300⟩ =
      { rejection := none, encoded := true, sttCalled := true,
        translateCalled := ["en"], events := [.onResult "hello" []] } := by
    unfold finalizeSegment
    rw [if_neg (by simp), if_neg hmin, if_neg hgate]
    simp [hq, htr, deliverTranslations]
  rw [hres]
  exact ⟨rfl, by simp⟩

/-- The language components of the pushed results form a sublist of
`outputs`: each queue entry contributes at most one result, labelled with
its own target language, in queue order. -/
theorem runTranslationQueue_fst_sublist (env : Env) (outputs : List String) :
    ((runTranslationQueue env outputs).map Prod.fst).Sublist outputs := by
  induction outputs with
  | nil => simp [runTranslationQueue]
  | cons l rest ih =>
    simp only [runTranslationQueue, List.filterMap_cons] at ih ⊢
    cases h : translateOne env l with
    | none => exact ih.cons l
    | some p =>
      rw [List.map_cons, translateOne_fst env l p h]
      exact ih.cons₂ l

/-- Along a duplicate-free list, first-occurrence indexes are strictly
increasing. -/
theorem pairwise_indexOf_lt_of_nodup {outputs : List String} (h : outputs.Nodup) :
    outputs.Pairwise
      (fun a b => List.indexOf a outputs < List.indexOf b outputs) := by
  rw [List.pairwise_iff_getElem]
  intro i j hi hj hij
  rw [List.indexOf_getElem h i hi, List.indexOf_getElem h j hj]
  exact hij

/-- For a duplicate-free target list, the canonical queue-order result
list is strictly sorted by first-occurrence index in `outputs`. -/
theorem runTranslationQueue_pairwise_lt (env : Env) {outputs : List String}
    (hnd : outputs.Nodup) :
    (runTranslationQueue env outputs).Pairwise
      (fun p q => List.indexOf p.1 outputs < List.indexOf q.1 outputs) := by
  have hpw : ((runTranslationQueue env outputs).map Prod.fst).Pairwise
      (fun a b => List.indexOf a outputs < List.indexOf b outputs) :=
    List.Pairwise.sublist (runTranslationQueue_fst_sublist env outputs)
      (pairwise_indexOf_lt_of_nodup hnd)
  rw [List.pairwise_map] at hpw
  exact hpw

/-- C2 (amended): for every duplicate-free ordered target list and every
order in which the individual translation calls complete or fail — i.e.
for every permutation `results` of the successful contributions — the
delivered list equals the original-order list: sorted to match the target
list, failed or empty targets omitted, relative order of the remaining
targets preserved.  (For target lists with a duplicated language the
delivered order can differ from the original order; see the
counterexample.) -/
theorem C2_delivery_order (env : Env) (outputs : List String)
    (hnd : outputs.Nodup) (results : List (String × String))
    (hperm : results.Perm (runTranslationQueue env outputs)) :
    deliverTranslations outputs results = runTranslationQueue env outputs := by
  have hdperm : (deliverTranslations outputs results).Perm
      (runTranslationQueue env outputs) :=
    (List.mergeSort_perm results _).trans hperm
  have hsorted : (deliverTranslations outputs results).Pairwise
      (fun a b =>
        (decide (List.indexOf a.1 outputs ≤ List.indexOf b.1 outputs)) = true) :=
    List.sorted_mergeSort
      (fun a b c hab hbc => by
        simp only [decide_eq_true_eq] at hab hbc ⊢
        exact le_trans hab hbc)
      (fun a b => by
        simp only [Bool.or_eq_true, decide_eq_true_eq]
        exact Nat.le_total _ _)
      results
  have hfstnodup : ((runTranslationQueue env outputs).map Prod.fst).Nodup :=
    (runTranslationQueue_fst_sublist env outputs).nodup hnd
  have hdnodup : ((deliverTranslations outputs results).map Prod.fst).Nodup :=
    ((hdperm.map Prod.fst).nodup_iff).mpr hfstnodup
  have hne : (deliverTranslations outputs results).Pairwise
      (fun p q => p.1 ≠ q.1) :=
    List.pairwise_map.mp hdnodup
  have hmemout : ∀ p ∈ deliverTranslations outputs results, p.1 ∈ outputs := by
    intro p hp
    exact (runTranslationQueue_fst_sublist env outputs).subset
      (List.mem_map_of_mem Prod.fst (hdperm.mem_iff.mp hp))
  have hlt : (deliverTranslations outputs results).Pairwise
      (fun p q => List.indexOf p.1 outputs < List.indexOf q.1 outputs) := by
    refine (hsorted.and hne).imp_of_mem ?_
    intro p q hp hq hpq
    have hle : List.indexOf p.1 outputs ≤ List.indexOf q.1 outputs :=
      of_decide_eq_true hpq.1
    have hidx : List.indexOf p.1 outputs ≠ List.indexOf q.1 outputs := fun hEq =>
      hpq.2 ((List.indexOf_inj (hmemout p hp) (hmemout q hq)).mp hEq)
    exact lt_of_le_of_ne hle hidx
  haveI : IsAntisymm (String × String)
      (fun p q => List.indexOf p.1 outputs < List.indexOf q.1 outputs) :=
    ⟨fun _ _ h1 h2 => absurd h1 (Nat.lt_asymm h2)⟩
  exact List.eq_of_perm_of_sorted hdperm hlt
    (runTranslationQueue_pairwise_lt env hnd)

/-- Witness for C2 at a concrete input: targets [A, B, C], where B's call
fails and C's completes before A's, still deliver [A-entry, C-entry]. -/
theorem C2_delivery_order_witness :
    deliverTranslations ["A", "B", "C"] [("C", "tc"), ("A", "ta")] =
      [("A", "ta"), ("C", "tc")] := by
  have h := C2_delivery_order
    ⟨.ok "x", fun l => if l = "A" then .ok "ta" else
      if l = "B" then .err "boom" else .ok "tc"⟩
    ["A", "B", "C"] (by decide) [("C", "tc"), ("A", "ta")] (by decide)
  have hq : runTranslationQueue
      ⟨.ok "x", fun l => if l = "A" then .ok "ta" else
        if l = "B" then .err "boom" else .ok "tc"⟩ ["A", "B", "C"] =
      [("A", "ta"), ("C", "tc")] := by decide
  rw [hq] at h
  exact h

/-- Counterexample for C2 as stated: for the target list [A, B, A] (a
language repeated), with every call succeeding and completing in queue
order, the delivered list groups the two A-entries together instead of
matching the original target-list order — the relative order of the
remaining targets is not preserved. -/
theorem C2_counterexample :
    deliverTranslations ["A", "B", "A"]
        (runTranslationQueue ⟨.ok "x", fun l => .ok l⟩ ["A", "B", "A"]) =
      [("A", "A"), ("A", "A"), ("B", "B")] ∧
    runTranslationQueue ⟨.ok "x", fun l => .ok l⟩ ["A", "B", "A"] =
      [("A", "A"), ("B", "B"), ("A", "A")] ∧
    deliverTranslations ["A", "B", "A"]
        (runTranslationQueue ⟨.ok "x", fun l => .ok l⟩ ["A", "B", "A"]) ≠
      runTranslationQueue ⟨.ok "x", fun l => .ok l⟩ ["A", "B", "A"] := by
  have hq : runTranslationQueue ⟨.ok "x", fun l => .ok l⟩ ["A", "B", "A"] =
      [("A", "A"), ("B", "B"), ("A", "A")] := by decide
  refine ⟨?_, hq, ?_⟩
  · rw [hq]
    simp [deliverTranslations, List.mergeSort]
  · rw [hq]
    simp [deliverTranslations, List.mergeSort]

/-! ## Maximum-duration force-finalization (C3) -/

/-- A continuously-voiced input: 41 frames of 128 ms at energy 0.05, well
above the default `vadGateHigh` (0.01); total duration 5248 ms, beyond the
default `maxSegmentMs` (5000 ms). -/
def voicedLongFrames : List Frame := List.replicate 41 ⟨[], 128, 1/20⟩

/-- An input whose every frame's energy (0.005) is at or above the default
`vadGateLow` (0.004) but below `vadGateHigh` (0.01); 50 frames of 128 ms,
total duration 6400 ms, beyond the default `maxSegmentMs`. -/
def lowVoicedFrames : List Frame := List.replicate 50 ⟨[], 128, 5/1000⟩

/-- A step that finalizes a segment always leaves the machine in the reset
(idle) state: `finalizeSegment()` is immediately followed by
`resetSegmentState()`. -/
theorem stepFrame_finalize_resets (cfg : Config) (st : SegState) (f : Frame)
    (h : (stepFrame cfg st f).2.isSome = true) :
    (stepFrame cfg st f).1 = resetSegmentState := by
  by_cases h1 : st.speaking = false
  · by_cases h2 : cfg.vadGateHigh ≤ f.energy <;> simp [stepFrame, h1, h2] at h ⊢
  · by_cases h2 : f.energy < cfg.vadGateLow
    · by_cases h3 : cfg.padMs ≤ st.silenceMs + f.frameMs ∨
          cfg.maxSegmentMs ≤ st.segDurMs + f.frameMs <;>
        simp [stepFrame, h1, h2, h3] at h ⊢
    · by_cases h3 : cfg.maxSegmentMs ≤ st.segDurMs + f.frameMs <;>
        simp [stepFrame, h1, h2, h3] at h ⊢

/-- Induction core for C3: over all-voiced input (every frame's energy at
or above `vadGateHigh`, each frame at most `B` ms long with `B` below the
maximum), starting from the reset state or from an in-progress segment
strictly below `maxSegmentMs`, every finalized segment's duration lies in
the window `[maxSegmentMs, maxSegmentMs + B)`, and no audio is dropped:
the finalized durations plus the in-progress duration account for the
entire input. -/
theorem runFrames_voiced_bounds (cfg : Config) (B : ℚ)
    (hlow : cfg.vadGateLow ≤ cfg.vadGateHigh) (hmax : 0 < cfg.maxSegmentMs)
    (hBmax : B < cfg.maxSegmentMs) :
    ∀ (frames : List Frame) (st : SegState),
      (∀ f ∈ frames, cfg.vadGateHigh ≤ f.energy) →
      (∀ f ∈ frames, f.frameMs ≤ B) →
      (st.speaking = false → st = resetSegmentState) →
      st.segDurMs < cfg.maxSegmentMs →
      (∀ seg ∈ (runFrames cfg st frames).2,
          cfg.maxSegmentMs ≤ seg.durMs ∧ seg.durMs < cfg.maxSegmentMs + B) ∧
      ((runFrames cfg st frames).2.map Segment.durMs).sum
          + (runFrames cfg st frames).1.segDurMs
        = st.segDurMs + (frames.map Frame.frameMs).sum := by
  intro frames
  induction frames with
  | nil =>
    intro st _ _ _ _
    simp [runFrames]
  | cons f rest ih =>
    intro st hE hB hidle hdur
    have hEf := hE f (List.mem_cons_self f rest)
    have hBf := hB f (List.mem_cons_self f rest)
    have hErest : ∀ g ∈ rest, cfg.vadGateHigh ≤ g.energy :=
      fun g hg => hE g (List.mem_cons_of_mem f hg)
    have hBrest : ∀ g ∈ rest, g.frameMs ≤ B :=
      fun g hg => hB g (List.mem_cons_of_mem f hg)
    by_cases hsp : st.speaking = false
    · -- idle: the frame starts a new segment
      have hst := hidle hsp
      subst hst
      have hstep : stepFrame cfg resetSegmentState f =
          ({ segFrames := [f], segDurMs := f.frameMs, silenceMs := 0,
             speaking := true, voicedMs := f.frameMs }, none) := by
        simp [stepFrame, resetSegmentState, hEf]
      have hrec := ih ⟨[f], f.frameMs, 0, true, f.frameMs⟩ hErest hBrest
        (by intro h; cases h) (lt_of_le_of_lt hBf hBmax)
      simp only [runFrames, hstep, Option.toList_none, List.nil_append]
      refine ⟨hrec.1, ?_⟩
      rw [hrec.2]
      simp [resetSegmentState]
    · -- speaking: the frame is voiced, so the silence branch is not taken
      have hsp' : st.speaking = true := by
        cases h : st.speaking with
        | false => exact absurd h hsp
        | true => rfl
      have hnl : ¬ f.energy < cfg.vadGateLow := not_lt.mpr (le_trans hlow hEf)
      by_cases hfin : cfg.maxSegmentMs ≤ st.segDurMs + f.frameMs
      · -- the accumulated duration reached the maximum: force-finalize
        have hstep : stepFrame cfg st f =
            (resetSegmentState,
              some ⟨st.segFrames ++ [f], st.segDurMs + f.frameMs,
                st.voicedMs + f.frameMs⟩) := by
          simp [stepFrame, hsp', hnl, hfin]
        have hrec := ih resetSegmentState hErest hBrest (fun _ => rfl)
          (by simpa [resetSegmentState] using hmax)
        simp only [runFrames, hstep, Option.toList_some, List.singleton_append]
        constructor
        · intro seg hseg
          rcases List.mem_cons.mp hseg with hseg | hseg
          · subst hseg
            exact ⟨hfin, by dsimp only; linarith⟩
          · exact hrec.1 seg hseg
        · simp only [List.map_cons, List.sum_cons]
          rw [add_assoc, hrec.2]
          simp [resetSegmentState]
          ring
      · -- keep accumulating
        have hstep : stepFrame cfg st f =
            ({ segFrames := st.segFrames ++ [f], segDurMs := st.segDurMs + f.frameMs,
               silenceMs := 0, speaking := st.speaking,
               voicedMs := st.voicedMs + f.frameMs }, none) := by
          simp [stepFrame, hsp', hnl, hfin]
        have hrec := ih
          ⟨st.segFrames ++ [f], st.segDurMs + f.frameMs, 0, st.speaking,
            st.voicedMs + f.frameMs⟩
          hErest hBrest (by intro h; rw [hsp'] at h; cases h)
          (lt_of_not_le hfin)
        simp only [runFrames, hstep, Option.toList_none, List.nil_append]
        refine ⟨hrec.1, ?_⟩
        rw [hrec.2]
        simp only [List.map_cons, List.sum_cons]
        ring

/-- C3 (amended): for every frame sequence in which every frame's energy
is at or above `vadGateHigh` (frames that are merely at or above
`vadGateLow` neither start nor, after a reset, resume a segment) and each
frame is at most `B` ms long with `B < maxSegmentMs`: the segmenter
force-finalizes every segment at the first frame at which the accumulated
duration reaches `maxSegmentMs` — so each finalized segment's total
duration is at least `maxSegmentMs` and strictly less than
`maxSegmentMs + B` (it may exceed `maxSegmentMs` by up to one frame, not
"at or before" it) — the machine returns to the reset idle state on every
finalization, and segmentation resumes with no audio dropped: the
finalized durations plus the in-progress duration equal the total input
duration. -/
theorem C3_max_duration_force_finalize (cfg : Config) (B : ℚ)
    (frames : List Frame)
    (hlow : cfg.vadGateLow ≤ cfg.vadGateHigh) (hmax : 0 < cfg.maxSegmentMs)
    (hBmax : B < cfg.maxSegmentMs)
    (hE : ∀ f ∈ frames, cfg.vadGateHigh ≤ f.energy)
    (hB : ∀ f ∈ frames, f.frameMs ≤ B) :
    (∀ seg ∈ (runFrames cfg resetSegmentState frames).2,
        cfg.maxSegmentMs ≤ seg.durMs ∧ seg.durMs < cfg.maxSegmentMs + B) ∧
    ((runFrames cfg resetSegmentState frames).2.map Segment.durMs).sum
        + (runFrames cfg resetSegmentState frames).1.segDurMs
      = (frames.map Frame.frameMs).sum ∧
    (∀ st g, (stepFrame cfg st g).2.isSome = true →
        (stepFrame cfg st g).1 = resetSegmentState) := by
  have h := runFrames_voiced_bounds cfg B hlow hmax hBmax frames
    resetSegmentState hE hB (fun _ => rfl)
    (by simpa [resetSegmentState] using hmax)
  refine ⟨h.1, ?_, fun st g => stepFrame_finalize_resets cfg st g⟩
  have h2 := h.2
  simpa [resetSegmentState] using h2

/-- Witness for C3 (amended) at a concrete input: over 41 voiced frames of
128 ms, the finalized durations plus the in-progress duration account for
the whole 5248 ms of input. -/
theorem C3_max_duration_force_finalize_witness :
    ((runFrames defaultConfig resetSegmentState voicedLongFrames).2.map
        Segment.durMs).sum
        + (runFrames defaultConfig resetSegmentState voicedLongFrames).1.segDurMs
      = (voicedLongFrames.map Frame.frameMs).sum :=
  (C3_max_duration_force_finalize defaultConfig 128 voicedLongFrames
    (by norm_num [defaultConfig]) (by norm_num [defaultConfig])
    (by norm_num [defaultConfig])
    (by
      intro f hf
      rw [List.eq_of_mem_replicate hf]
      norm_num [defaultConfig])
    (by
      intro f hf
      rw [List.eq_of_mem_replicate hf])).2.1

set_option maxRecDepth 8000 in
/-- Counterexample for C3 as stated: (a) with the default parameters, a
continuously-voiced input of 128 ms frames is force-finalized with a total
duration of 5120 ms, which exceeds `maxSegmentMs = 5000` — finalization
happens at the first frame at or past the maximum, not "at or before" it;
(b) a sequence whose every frame energy (0.005) is at or above
`vadGateLow` but below `vadGateHigh`, of total duration 6400 ms, never
finalizes any segment at all — the claim's premise "every frame's energy
at or above gateLow" does not make the machine accumulate or finalize. -/
theorem C3_counterexample :
    ((runFrames defaultConfig resetSegmentState voicedLongFrames).2.map
        Segment.durMs) = [5120] ∧
    ¬ ((5120 : ℚ) ≤ defaultConfig.maxSegmentMs) ∧
    (runFrames defaultConfig resetSegmentState lowVoicedFrames).2 = [] ∧
    defaultConfig.maxSegmentMs < (lowVoicedFrames.map Frame.frameMs).sum := by
  refine ⟨?_, by norm_num [defaultConfig], ?_, ?_⟩
  · norm_num [voicedLongFrames, List.replicate, runFrames, stepFrame,
      defaultConfig, resetSegmentState]
  · norm_num [lowVoicedFrames, List.replicate, runFrames, stepFrame,
      defaultConfig, resetSegmentState]
  · norm_num [lowVoicedFrames, List.replicate, defaultConfig]

/-! ## Codec: `floatTo16BitPCM` and `encodeWav` (C9) -/

/-- The symmetric clamp `Math.max(-1, Math.min(1, src[i]))` of
`floatTo16BitPCM`. -/
def clampUnit (s : ℚ) : ℚ := max (-1) (min 1 s)

/-- Truncation toward zero, the JavaScript ToInt16 conversion applied when
a number is stored into an `Int16Array` element.  The values produced by
`floatTo16BitPCM` already lie in [-32768, 32767], so no wrap occurs. -/
def jsTruncToInt (q : ℚ) : ℤ := if 0 ≤ q then ⌊q⌋ else -⌊-q⌋

/-- `floatTo16BitPCM` (lines 36-43): clamp each float sample symmetrically
to [-1, 1], then scale by 0x8000 = 32768 for negative samples and
0x7fff = 32767 for non-negative ones, truncating at the Int16Array
store. -/
def floatTo16BitPCM (src : List ℚ) : List ℤ :=
  src.map (fun x =>
    let s := clampUnit x
    if s < 0 then jsTruncToInt (s * 32768) else jsTruncToInt (s * 32767))

/-- Little-endian byte pair of a 16-bit value (`DataView.setUint16`
... true). -/
def u16le (v : ℕ) : List ℕ := [v % 256, v / 256 % 256]

/-- Little-endian byte quadruple of a 32-bit value (`DataView.setUint32`
... true). -/
def u32le (v : ℕ) : List ℕ :=
  [v % 256, v / 256 % 256, v / 65536 % 256, v / 16777216 % 256]

/-- `DataView.setInt16 (offset, v, true)`: the two's-complement 16-bit
little-endian bytes of an integer. -/
def i16le (v : ℤ) : List ℕ := u16le (v % 65536).toNat

/-- `encodeWav` (lines 62-85): the fixed 44-byte RIFF/WAVE header followed
by the little-endian PCM payload, with every write in source offset
order: "RIFF", chunk size `36 + dataSize`, "WAVE", "fmt ", sub-chunk size
16, format tag 1 and channel count 1 (each written as
`String.fromCharCode(1, 0)`), sample rate, byte rate, block align, bits
per sample 16, "data", `dataSize`, then each sample via
`setInt16(offset, v, true)`. -/
def encodeWav (int16 : List ℤ) (sampleRate : ℕ) : List ℕ :=
  let bytesPerSample := 2
  let blockAlign := 1 * bytesPerSample
  let byteRate := sampleRate * blockAlign
  let dataSize := int16.length * bytesPerSample
  [82, 73, 70, 70] ++ u32le (36 + dataSize) ++
    [87, 65, 86, 69] ++ [102, 109, 116, 32] ++ u32le 16 ++
    [1, 0] ++ [1, 0] ++ u32le sampleRate ++ u32le byteRate ++
    u16le blockAlign ++ u16le 16 ++
    [100, 97, 116, 97] ++ u32le dataSize ++
    (int16.map i16le).flatten

/-- Each encoded sample contributes exactly two bytes. -/
theorem i16le_length (v : ℤ) : (i16le v).length = 2 := rfl

/-- Every byte emitted by `u16le` is below 256. -/
theorem u16le_lt (v : ℕ) : ∀ b ∈ u16le v, b < 256 := by
  intro b hb
  simp only [u16le, List.mem_cons, List.not_mem_nil, or_false] at hb
  rcases hb with h | h <;> subst h <;> exact Nat.mod_lt _ (by norm_num)

/-- Every byte emitted by `u32le` is below 256. -/
theorem u32le_lt (v : ℕ) : ∀ b ∈ u32le v, b < 256 := by
  intro b hb
  simp only [u32le, List.mem_cons, List.not_mem_nil, or_false] at hb
  rcases hb with h | h | h | h <;> subst h <;> exact Nat.mod_lt _ (by norm_num)

/-- C9: for every float sample buffer of length n, the encoder clamps
each sample to [-1, 1] and scales negative samples by 32768 and
non-negative ones by 32767 (conjunct on `floatTo16BitPCM`, whose values
therefore all lie within the signed 16-bit range), and the produced
container is exactly `44 + 2n` bytes: a RIFF/WAVE header with PCM format
tag 1, one channel, sample rate 16000, byte rate 32000, block alignment
2, 16 bits per sample, a data chunk whose size field is `2n`, followed by
the little-endian two's-complement PCM payload; every emitted byte value
is below 256. -/
theorem C9_wav_layout (src : List ℚ) :
    floatTo16BitPCM src = src.map (fun x =>
      if clampUnit x < 0 then jsTruncToInt (clampUnit x * 32768)
      else jsTruncToInt (clampUnit x * 32767)) ∧
    (∀ v ∈ floatTo16BitPCM src, -32768 ≤ v ∧ v ≤ 32767) ∧
    (encodeWav (floatTo16BitPCM src) 16000).length = 44 + 2 * src.length ∧
    encodeWav (floatTo16BitPCM src) 16000 =
      [82, 73, 70, 70] ++ u32le (36 + 2 * src.length) ++
        [87, 65, 86, 69] ++ [102, 109, 116, 32] ++ u32le 16 ++
        [1, 0] ++ [1, 0] ++ u32le 16000 ++ u32le 32000 ++
        u16le 2 ++ u16le 16 ++
        [100, 97, 116, 97] ++ u32le (2 * src.length) ++
        ((floatTo16BitPCM src).map i16le).flatten ∧
    (∀ b ∈ encodeWav (floatTo16BitPCM src) 16000, b < 256) := by
  have hlen : (floatTo16BitPCM src).length = src.length := by
    simp [floatTo16BitPCM]
  have hbounds : ∀ v ∈ floatTo16BitPCM src, -32768 ≤ v ∧ v ≤ 32767 := by
    intro v hv
    rcases List.mem_map.mp hv with ⟨x, _, rfl⟩
    have hs1 : (-1 : ℚ) ≤ clampUnit x := le_max_left _ _
    have hs2 : clampUnit x ≤ 1 := max_le (by norm_num) (min_le_left _ _)
    by_cases hneg : clampUnit x < 0
    · have hq1 : (-32768 : ℚ) ≤ clampUnit x * 32768 := by nlinarith
      have hq2 : clampUnit x * 32768 < 0 := by nlinarith
      have hnn : ¬ (0 : ℚ) ≤ clampUnit x * 32768 := not_le.mpr hq2
      simp only [hneg, if_true, jsTruncToInt, hnn, if_false]
      constructor
      · have h1 : ⌊-(clampUnit x * 32768)⌋ ≤ ⌊(32768 : ℚ)⌋ :=
          Int.floor_mono (by linarith)
        have h2 : ⌊(32768 : ℚ)⌋ = 32768 := by norm_num
        omega
      · have : (0 : ℤ) ≤ ⌊-(clampUnit x * 32768)⌋ := by
          apply Int.floor_nonneg.mpr
          linarith
        omega
    · have hge : (0 : ℚ) ≤ clampUnit x := not_lt.mp hneg
      have hq1 : (0 : ℚ) ≤ clampUnit x * 32767 := by nlinarith
      have hq2 : clampUnit x * 32767 ≤ 32767 := by nlinarith
      simp only [hneg, if_false, jsTruncToInt, hq1, if_true]
      constructor
      · have : (0 : ℤ) ≤ ⌊clampUnit x * 32767⌋ := Int.floor_nonneg.mpr hq1
        omega
      · have h1 : ⌊clampUnit x * 32767⌋ ≤ ⌊(32767 : ℚ)⌋ := Int.floor_mono hq2
        have h2 : ⌊(32767 : ℚ)⌋ = 32767 := by norm_num
        omega
  have hjoinlen : (((floatTo16BitPCM src).map i16le).flatten).length
      = 2 * src.length := by
    rw [List.length_flatten, List.map_map]
    have : (List.length ∘ i16le) = fun _ : ℤ => 2 := by
      funext v
      simp [i16le_length]
    rw [this, List.map_const', List.sum_replicate, smul_eq_mul, hlen,
      Nat.mul_comm]
  have hshape : encodeWav (floatTo16BitPCM src) 16000 =
      [82, 73, 70, 70] ++ u32le (36 + 2 * src.length) ++
        [87, 65, 86, 69] ++ [102, 109, 116, 32] ++ u32le 16 ++
        [1, 0] ++ [1, 0] ++ u32le 16000 ++ u32le 32000 ++
        u16le 2 ++ u16le 16 ++
        [100, 97, 116, 97] ++ u32le (2 * src.length) ++
        ((floatTo16BitPCM src).map i16le).flatten := by
    simp only [encodeWav, hlen]
    norm_num [Nat.mul_comm]
  refine ⟨rfl, hbounds, ?_, hshape, ?_⟩
  · rw [hshape]
    simp [u32le, u16le, hjoinlen]
    omega
  · rw [hshape]
    intro b hb
    simp only [List.append_assoc, List.mem_append, List.mem_cons,
      List.not_mem_nil, or_false, List.mem_flatten, List.mem_map] at hb
    rcases hb with h | h | h | h | h | h | h | h | h | h | h | h | h | h
    · rcases h with h | h | h | h <;> omega
    · exact u32le_lt _ b h
    · rcases h with h | h | h | h <;> omega
    · rcases h with h | h | h | h <;> omega
    · exact u32le_lt _ b h
    · rcases h with h | h <;> omega
    · rcases h with h | h <;> omega
    · exact u32le_lt _ b h
    · exact u32le_lt _ b h
    · exact u16le_lt _ b h
    · exact u16le_lt _ b h
    · rcases h with h | h | h | h <;> omega
    · exact u32le_lt _ b h
    · rcases h with ⟨l, ⟨v, _, rfl⟩, hbl⟩
      exact u16le_lt _ b hbl

/-- Witness for C9 at a concrete input: the two-sample buffer [-1, 1/2]
encodes to a container of 48 bytes whose data-size field is 4. -/
theorem C9_wav_layout_witness :
    (encodeWav (floatTo16BitPCM [-1, 1/2]) 16000).length = 44 + 2 * 2 :=
  (C9_wav_layout [-1, 1/2]).2.2.1

/-! ## Resampler: `downsampleTo16k` (C8) -/

/-- The position at which the inner accumulation loop of `downsampleTo16k`
stops when started at `pos` with bound `nextPos`: the first position at or
past `nextPos`, clipped to the input length, and never before `pos`. -/
def stopPos (len : ℕ) (nextPos : ℚ) (pos : ℕ) : ℕ :=
  max pos (min (Int.toNat ⌈nextPos⌉) len)

/-- The inner loop of `downsampleTo16k` (line 56 of `useMicStreamer.ts`):
`for (; pos < nextPos && pos < float32.length; pos++) { sum += float32[pos]; count++; }`.
Returns the accumulated sum, the count, and the final position. -/
def sumCount (src : List ℚ) (nextPos : ℚ) (pos : ℕ) (sum : ℚ) (count : ℕ) :
    ℚ × ℕ × ℕ :=
  if h : (pos : ℚ) < nextPos ∧ pos < src.length then
    sumCount src nextPos (pos + 1) (sum + src.getD pos 0) (count + 1)
  else
    (sum, count, pos)
termination_by src.length - pos
decreasing_by
  obtain ⟨-, h2⟩ := h
  omega

/-- The outer loop of `downsampleTo16k` (lines 53-58): one output sample
per index below `outLen`, each the group mean
(`out[idx++] = count ? sum / count : 0`). -/
def downsampleLoop (src : List ℚ) (ratio : ℚ) (outLen : ℕ) (pos idx : ℕ)
    (acc : List ℚ) : List ℚ :=
  if _h : idx < outLen then
    let nextPos : ℚ := ((idx : ℚ) + 1) * ratio
    let r := sumCount src nextPos pos 0 0
    downsampleLoop src ratio outLen r.2.2 (idx + 1)
      (acc ++ [if r.2.1 = 0 then 0 else r.1 / (r.2.1 : ℚ)])
  else
    acc
termination_by outLen - idx
decreasing_by omega

/-- `downsampleTo16k` (lines 45-60): if the input rate is 16000 the input
buffer is returned unchanged; otherwise average-pool by the linear time
ratio `inRate / 16000`, producing `Math.floor(length / ratio)` samples. -/
def downsampleTo16k (float32 : List ℚ) (inRate : ℕ) : List ℚ :=
  if inRate = 16000 then float32
  else
    let ratio : ℚ := (inRate : ℚ) / 16000
    let outLen : ℕ := (⌊(float32.length : ℚ) / ratio⌋).toNat
    downsampleLoop float32 ratio outLen 0 0 []

/-- The group of input positions that the linear time ratio maps to output
index `idx`: the integer positions `p < len` with
`idx * ratio ≤ p < (idx + 1) * ratio`. -/
def ratioGroup (len : ℕ) (ratio : ℚ) (idx : ℕ) : Finset ℕ :=
  (Finset.range len).filter
    (fun p => (idx : ℚ) * ratio ≤ (p : ℚ) ∧ (p : ℚ) < ((idx : ℚ) + 1) * ratio)

/-- The arithmetic mean of the group's samples; 0 for an empty group. -/
def ratioGroupMean (src : List ℚ) (ratio : ℚ) (idx : ℕ) : ℚ :=
  if (ratioGroup src.length ratio idx).card = 0 then 0
  else ((ratioGroup src.length ratio idx).sum (fun p => src.getD p 0))
    / ((ratioGroup src.length ratio idx).card : ℚ)

/-- The running position of the outer loop when it reaches output index
`idx`: the first input position at or past `idx * ratio`, clipped to the
input length. -/
def posAt (len : ℕ) (ratio : ℚ) (idx : ℕ) : ℕ :=
  min (Int.toNat ⌈(idx : ℚ) * ratio⌉) len

/-- Closed form of the inner loop: starting at `pos` it consumes exactly
the positions of `[pos, stopPos)`, adding their samples to the sum and
their number to the count, and stops at `stopPos`. -/
theorem sumCount_eq (src : List ℚ) (nextPos : ℚ) :
    ∀ (pos : ℕ) (sum : ℚ) (count : ℕ),
      sumCount src nextPos pos sum count =
        (sum + (Finset.Ico pos (stopPos src.length nextPos pos)).sum
            (fun p => src.getD p 0),
         count + (stopPos src.length nextPos pos - pos),
         stopPos src.length nextPos pos) := by
  intro pos sum count
  induction pos, sum, count using sumCount.induct src nextPos with
  | case1 pos sum count h ih =>
    have hceil : (pos : ℤ) < ⌈nextPos⌉ := Int.lt_ceil.mpr (by exact_mod_cast h.1)
    have hlen : pos < src.length := h.2
    have hstop : stopPos src.length nextPos pos
        = stopPos src.length nextPos (pos + 1) := by
      unfold stopPos
      omega
    have hlt : pos < stopPos src.length nextPos pos := by
      unfold stopPos
      omega
    rw [sumCount, dif_pos h, ih, hstop]
    have hsum : (Finset.Ico (pos + 1) (stopPos src.length nextPos (pos + 1))).sum
          (fun p => src.getD p 0)
        = (Finset.Ico pos (stopPos src.length nextPos (pos + 1))).sum
            (fun p => src.getD p 0) - src.getD pos 0 := by
      rw [Finset.sum_eq_sum_Ico_succ_bot (by omega : pos < stopPos src.length nextPos (pos + 1))]
      ring
    refine Prod.ext ?_ (Prod.ext ?_ ?_)
    · simp only
      rw [hsum]
      ring
    · simp only
      omega
    · rfl
  | case2 pos sum count h =>
    have hstop : stopPos src.length nextPos pos = pos := by
      rcases not_and_or.mp h with h1 | h2
      · have : ⌈nextPos⌉ ≤ (pos : ℤ) := Int.ceil_le.mpr (by exact_mod_cast not_lt.mp h1)
        unfold stopPos
        omega
      · have : src.length ≤ pos := not_lt.mp h2
        unfold stopPos
        omega
    rw [sumCount, dif_neg h, hstop]
    simp

/-- From the loop position of output index `idx`, the inner loop stops
exactly at the loop position of index `idx + 1`. -/
theorem stopPos_posAt (len : ℕ) (ratio : ℚ) (hr : 0 ≤ ratio) (idx : ℕ) :
    stopPos len (((idx : ℚ) + 1) * ratio) (posAt len ratio idx)
      = posAt len ratio (idx + 1) := by
  have hc : ⌈(idx : ℚ) * ratio⌉ ≤ ⌈((idx : ℚ) + 1) * ratio⌉ :=
    Int.ceil_mono (by nlinarith)
  have hcast : ((idx + 1 : ℕ) : ℚ) = (idx : ℚ) + 1 := by push_cast; ring
  unfold stopPos posAt
  rw [hcast]
  omega

/-- The ratio group of index `idx` is exactly the integer interval between
consecutive loop positions. -/
theorem ratioGroup_eq_Ico (len : ℕ) (ratio : ℚ) (idx : ℕ) :
    ratioGroup len ratio idx =
      Finset.Ico (posAt len ratio idx) (posAt len ratio (idx + 1)) := by
  ext p
  simp only [ratioGroup, Finset.mem_filter, Finset.mem_range, Finset.mem_Ico, posAt]
  have hcast : ((idx + 1 : ℕ) : ℚ) = (idx : ℚ) + 1 := by push_cast; ring
  rw [hcast]
  constructor
  · rintro ⟨hplen, hlo, hhi⟩
    have h1 : ⌈(idx : ℚ) * ratio⌉ ≤ (p : ℤ) := Int.ceil_le.mpr (by exact_mod_cast hlo)
    have h2 : (p : ℤ) < ⌈((idx : ℚ) + 1) * ratio⌉ := Int.lt_ceil.mpr (by exact_mod_cast hhi)
    omega
  · rintro ⟨hlo, hhi⟩
    have hplen : p < len := lt_of_lt_of_le hhi (min_le_right _ _)
    have h2 : (p : ℤ) < ⌈((idx : ℚ) + 1) * ratio⌉ := by omega
    have h1 : ⌈(idx : ℚ) * ratio⌉ ≤ (p : ℤ) := by omega
    refine ⟨hplen, ?_, ?_⟩
    · exact_mod_cast Int.ceil_le.mp h1
    · exact_mod_cast Int.lt_ceil.mp h2

/-- Closed form of the outer loop: starting at output index `idx` with the
corresponding loop position, it appends one ratio-group mean per remaining
output index. -/
theorem downsampleLoop_eq (src : List ℚ) (ratio : ℚ) (hr : 0 ≤ ratio)
    (outLen : ℕ) :
    ∀ (n idx : ℕ), outLen - idx = n → ∀ (acc : List ℚ),
      downsampleLoop src ratio outLen (posAt src.length ratio idx) idx acc =
        acc ++ (List.range' idx (outLen - idx)).map (ratioGroupMean src ratio) := by
  intro n
  induction n with
  | zero =>
    intro idx hd acc
    have hge : ¬ idx < outLen := by omega
    rw [downsampleLoop, dif_neg hge, hd]
    simp
  | succ n ih =>
    intro idx hd acc
    have hlt : idx < outLen := by omega
    rw [downsampleLoop, dif_pos hlt]
    simp only [sumCount_eq, stopPos_posAt src.length ratio hr idx, zero_add]
    have hcard : (ratioGroup src.length ratio idx).card
        = posAt src.length ratio (idx + 1) - posAt src.length ratio idx := by
      rw [ratioGroup_eq_Ico, Nat.card_Ico]
    have hsum : (ratioGroup src.length ratio idx).sum (fun p => src.getD p 0)
        = (Finset.Ico (posAt src.length ratio idx)
            (posAt src.length ratio (idx + 1))).sum (fun p => src.getD p 0) := by
      rw [ratioGroup_eq_Ico]
    have hmean : (if posAt src.length ratio (idx + 1) - posAt src.length ratio idx = 0
          then (0 : ℚ)
          else (Finset.Ico (posAt src.length ratio idx)
              (posAt src.length ratio (idx + 1))).sum (fun p => src.getD p 0)
            / ((posAt src.length ratio (idx + 1) - posAt src.length ratio idx : ℕ) : ℚ))
        = ratioGroupMean src ratio idx := by
      rw [ratioGroupMean, hcard, hsum]
    rw [hmean, ih (idx + 1) (by omega)]
    have hrange : List.range' idx (outLen - idx)
        = idx :: List.range' (idx + 1) (outLen - (idx + 1)) := by
      have : outLen - idx = (outLen - (idx + 1)) + 1 := by omega
      rw [this, List.range'_succ]
    rw [hrange]
    simp

/-- C8: for every input sample rate and float buffer, the resampler
returns the input unchanged when the rate is 16000; otherwise it returns
exactly `floor(N * 16000 / inRate)` samples, the sample at output index
`idx` being the arithmetic mean of the input samples of its linear-ratio
group (0 if that group is empty). -/
theorem C8_downsample (float32 : List ℚ) (inRate : ℕ) (hpos : 0 < inRate) :
    (inRate = 16000 → downsampleTo16k float32 inRate = float32) ∧
    (downsampleTo16k float32 inRate).length = 16000 * float32.length / inRate ∧
    (inRate ≠ 16000 →
      downsampleTo16k float32 inRate =
        (List.range (16000 * float32.length / inRate)).map
          (ratioGroupMean float32 ((inRate : ℚ) / 16000))) := by
  have h0 : ((inRate : ℚ)) ≠ 0 := by positivity
  have houtLen : (⌊(float32.length : ℚ) / ((inRate : ℚ) / 16000)⌋).toNat
      = 16000 * float32.length / inRate := by
    have h1 : (float32.length : ℚ) / ((inRate : ℚ) / 16000)
        = ((16000 * float32.length : ℕ) : ℚ) / ((inRate : ℕ) : ℚ) := by
      push_cast
      field_simp
      ring
    rw [h1, Int.floor_toNat, Nat.floor_div_nat, Nat.floor_natCast]
  by_cases hne : inRate = 16000
  · subst hne
    refine ⟨fun _ => by simp [downsampleTo16k], ?_, fun h => absurd rfl h⟩
    simp [downsampleTo16k]
  · have hr : (0 : ℚ) ≤ (inRate : ℚ) / 16000 := by positivity
    have hp0 : posAt float32.length ((inRate : ℚ) / 16000) 0 = 0 := by
      unfold posAt
      norm_num
    have hmain : downsampleTo16k float32 inRate =
        (List.range (16000 * float32.length / inRate)).map
          (ratioGroupMean float32 ((inRate : ℚ) / 16000)) := by
      have hB := downsampleLoop_eq float32 ((inRate : ℚ) / 16000) hr
        (16000 * float32.length / inRate)
        (16000 * float32.length / inRate - 0) 0 rfl []
      rw [hp0] at hB
      simp only [downsampleTo16k, if_neg hne, houtLen]
      rw [hB]
      simp [List.range_eq_range']
    refine ⟨fun h => absurd h hne, ?_, fun _ => hmain⟩
    rw [hmain]
    simp

/-- Witness for C8 at a concrete input: a two-sample buffer at a 32000 Hz
input rate resamples to a single output sample. -/
theorem C8_downsample_witness :
    (downsampleTo16k [1, 3] 32000).length = 1 := by
  have h := (C8_downsample [1, 3] 32000 (by norm_num)).2.1
  norm_num at h
  exact h

end MicStreamer
